import Mathlib

/-
  Verification of the `IntelligentOrchestrator` task-graph core
  (`intelligent_orchestrator.py` together with the agent wrapper in
  `fixed_agents.py`): the task planner `_plan_workflow`, the workflow
  executor `_execute_workflow` / `_execute_single_task` /
  `_parse_routing_suggestions`, and the output compiler
  `_compile_final_output` / `_calculate_overall_confidence`.

  The remote chat-completion call (`client.chat.completions.create`) is the
  only external effect; it is modelled as an oracle parameter returning
  either generated text or an error message.  Confidence arithmetic, written
  with Python floats in the source, is modelled as IEEE-754 binary64 values
  (integer significand times a power of two, literals and sums rounded to 53
  significant bits with ties to even, as CPython's doubles behave on these
  normal-range values).
  The executor additionally returns a ghost log recording, for every task it
  executed, the result map at execution time, the task-local context string
  it passed to the agent, and the text it stored; the log does not influence
  the computation.
-/

set_option maxHeartbeats 1000000

/-! ### String helpers: Python's `needle in haystack.lower()` -/

/-- Boolean prefix test on character lists. -/
def isPrefixL : List Char → List Char → Bool
  | [], _ => true
  | _ :: _, [] => false
  | a :: as, b :: bs => a == b && isPrefixL as bs

/-- Boolean infix (substring) test on character lists. -/
def isInfixL (needle : List Char) : List Char → Bool
  | [] => needle.isEmpty
  | b :: bs => isPrefixL needle (b :: bs) || isInfixL needle bs

/-- Python's `str.lower()` on the character-list model of strings. -/
def toLowerStr (s : String) : String := String.mk (s.data.map Char.toLower)

/-- Python's `needle in hay` substring test. -/
def substrIn (needle hay : String) : Bool := isInfixL needle.data hay.data

/-! ### Data model (`TaskType`, `AgentTask`) -/

/-- `TaskType` enum of `intelligent_orchestrator.py`. -/
inductive TaskType where
  | vision_analysis
  | architectural_consultation
  | prompt_engineering
  | quality_assurance
  | style_analysis
  | technical_review
deriving DecidableEq, Repr

/-- The `.value` string of each enum member. -/
def TaskType.value : TaskType → String
  | .vision_analysis => "vision_analysis"
  | .architectural_consultation => "architectural_consultation"
  | .prompt_engineering => "prompt_engineering"
  | .quality_assurance => "quality_assurance"
  | .style_analysis => "style_analysis"
  | .technical_review => "technical_review"

/-- The `AgentTask` dataclass.  `dependencies` is a Python `set` whose
    concrete instances in this program have at most one element, so a list
    is a faithful model; `context` is an opaque dict that is written with
    boolean flags and never read.  The `completed`/`result` fields are
    mutated by the executor but never read by it. -/
structure AgentTask where
  task_type : TaskType
  input_data : String
  context : List (String × Bool)
  dependencies : List TaskType
  priority : Nat
  completed : Bool := false
  result : Option String := none
deriving DecidableEq, Repr

/-! ### Remote completion client and `SimpleAzureAgent.process_request` -/

/-- The remote chat-completion call made by `SimpleAzureAgent.process_request`
    for the agent registered under a given `TaskType` (the registry fixes
    name/instructions/model per kind, so they are folded into the kind
    argument).  Arguments: kind, user message, optional images, optional
    context.  `Except.error e` models the call raising an exception with
    message `e`. -/
def ClientOracle : Type :=
  TaskType → String → Option (List Unit) → Option String → Except String String

/-- The `name` each agent is registered with in `IntelligentOrchestrator.__init__`. -/
def agentName : TaskType → String
  | .vision_analysis => "Vision Analyst"
  | .architectural_consultation => "Architectural Expert"
  | .prompt_engineering => "FLUX Prompt Engineer"
  | .quality_assurance => "Quality Assurance"
  | .style_analysis => "Style Specialist"
  | .technical_review => "Technical Reviewer"

/-- `SimpleAzureAgent.process_request` (fixed_agents.py): every exception from
    the remote call is caught and converted to the string
    `"❌ Error in {name}: {e}"`. -/
def processRequest (o : ClientOracle) (kind : TaskType) (userMessage : String)
    (images : Option (List Unit)) (context : Option String) : String :=
  match o kind userMessage images context with
  | Except.ok text => text
  | Except.error e => "❌ Error in " ++ agentName kind ++ ": " ++ e

/-! ### The result dict (`Dict[TaskType, str]`, insertion ordered) -/

/-- Python dict lookup `d.get(k)` / `d[k]`. -/
def dictGet? : List (TaskType × String) → TaskType → Option String
  | [], _ => none
  | p :: rest, k => if p.1 == k then some p.2 else dictGet? rest k

/-- Python dict assignment `d[k] = v`: replace in place if the key exists,
    else append (insertion order preserved). -/
def dictInsert : List (TaskType × String) → TaskType → String → List (TaskType × String)
  | [], k, v => [(k, v)]
  | p :: rest, k, v => if p.1 == k then (k, v) :: rest else p :: dictInsert rest k v

/-- `list(d.keys())`. -/
def dictKeys (d : List (TaskType × String)) : List TaskType := d.map Prod.fst

/-! ### Task planner `_plan_workflow` -/

/-- Keyword set triggering the conditional style-analysis task. -/
def styleKeywords : List String := ["style", "historical", "period", "classical", "modern"]

/-- Keyword set triggering the conditional technical-review task. -/
def techKeywords : List String := ["structural", "engineering", "technical", "code", "regulation"]

/-- `_plan_workflow(user_message, user_images)`.  Images are opaque blobs;
    `user_images = []` models both Python `None` and an empty list (their
    truthiness coincides). -/
def planWorkflow (userMessage : String) (userImages : List Unit) : List AgentTask :=
  let tasks1 : List AgentTask :=
    if !userImages.isEmpty then
      [{ task_type := .vision_analysis, input_data := userMessage,
         context := [("has_images", true)], dependencies := [], priority := 1 }]
    else []
  let tasks2 := tasks1 ++
    [{ task_type := .architectural_consultation, input_data := userMessage,
       context := [],
       dependencies := if !userImages.isEmpty then [.vision_analysis] else [],
       priority := 2 }]
  let tasks3 := tasks2 ++
    [{ task_type := .prompt_engineering, input_data := userMessage, context := [],
       dependencies := [.architectural_consultation], priority := 3 }]
  let tasks4 := tasks3 ++
    [{ task_type := .quality_assurance, input_data := userMessage, context := [],
       dependencies := [.prompt_engineering], priority := 4 }]
  let tasks5 :=
    if styleKeywords.any (fun kw => substrIn kw (toLowerStr userMessage)) then
      tasks4 ++
        [{ task_type := .style_analysis, input_data := userMessage, context := [],
           dependencies := if !userImages.isEmpty then [.vision_analysis] else [],
           priority := 2 }]
    else tasks4
  if techKeywords.any (fun kw => substrIn kw (toLowerStr userMessage)) then
    tasks5 ++
      [{ task_type := .technical_review, input_data := userMessage, context := [],
         dependencies := [.architectural_consultation], priority := 3 }]
  else tasks5

/-! ### Workflow executor `_execute_workflow` -/

/-- Ghost log record of one task execution: the task, the result map and
    task-local context at the moment of execution, and the stored text. -/
structure ExecLogEntry where
  task : AgentTask
  resultsBefore : List (TaskType × String)
  ctxUsed : String
  stored : String
deriving DecidableEq, Repr

/-- Executor state: the result map, the `remaining_tasks` list, and the
    ghost execution log. -/
structure ExecState where
  results : List (TaskType × String)
  remaining : List AgentTask
  log : List ExecLogEntry
deriving DecidableEq, Repr

/-- Context assembly of `_execute_single_task`: session context plus one
    `"\n{dep.value}: {results[dep]}\n"` chunk per dependency present in the
    result map. -/
def buildTaskContext (context : String) (deps : List TaskType)
    (results : List (TaskType × String)) : String :=
  deps.foldl (fun acc dep =>
    match dictGet? results dep with
    | some r => acc ++ ("\n" ++ dep.value ++ ": " ++ r ++ "\n")
    | none => acc) context

/-- `_execute_single_task`: the agent call, with images passed only for
    vision-analysis when images were supplied. -/
def executeSingleTask (o : ClientOracle) (userImages : List Unit)
    (task : AgentTask) (taskContext : String) : String :=
  if task.task_type == TaskType.vision_analysis && !userImages.isEmpty then
    processRequest o task.task_type task.input_data (some userImages) (some taskContext)
  else
    processRequest o task.task_type task.input_data none (some taskContext)

/-- `_parse_routing_suggestions`: keyword scan of a result text for the two
    trigger phrases, never suggesting the kind that just ran. -/
def parseRoutingSuggestions (agentResult : String) (sourceTask : TaskType) : List TaskType :=
  (if substrIn "style analysis" (toLowerStr agentResult)
      && sourceTask != TaskType.style_analysis then [TaskType.style_analysis] else [])
  ++ (if substrIn "technical review" (toLowerStr agentResult)
      && sourceTask != TaskType.technical_review then [TaskType.technical_review] else [])

/-- The dynamically injected `AgentTask` for suggestion `k` triggered by a
    task of kind `src`. -/
def injectedTask (userMessage : String) (k src : TaskType) : AgentTask :=
  { task_type := k, input_data := userMessage,
    context := [("dynamic_routing", true)], dependencies := [src], priority := 5 }

/-- One step of the injection loop: append the injected task unless its kind
    is already among the remaining tasks. -/
def injectStep (userMessage : String) (src : TaskType)
    (rem : List AgentTask) (k : TaskType) : List AgentTask :=
  if (rem.map AgentTask.task_type).contains k then rem
  else rem ++ [injectedTask userMessage k src]

/-- The body of the executor's inner `for task in ready_tasks` loop: run the
    task, store its text under its kind, inject any routing suggestions, and
    remove the task from `remaining_tasks`. -/
def processTask (o : ClientOracle) (userMessage : String) (userImages : List Unit)
    (sessionContext : String) (st : ExecState) (task : AgentTask) : ExecState :=
  let taskContext := buildTaskContext sessionContext task.dependencies st.results
  let result := executeSingleTask o userImages task taskContext
  let results1 := dictInsert st.results task.task_type result
  let remaining1 :=
    (parseRoutingSuggestions result task.task_type).foldl
      (injectStep userMessage task.task_type) st.remaining
  { results := results1,
    remaining := remaining1.erase task,
    log := st.log ++ [{ task := task, resultsBefore := st.results,
                        ctxUsed := taskContext, stored := result }] }

/-- The `ready_tasks` snapshot: remaining tasks whose dependency set is
    contained in the keys of the result map. -/
def readyOf (results : List (TaskType × String)) (remaining : List AgentTask) :
    List AgentTask :=
  remaining.filter (fun t => t.dependencies.all (fun d => (dictKeys results).contains d))

/-- One iteration of the executor's `while` loop after the ready snapshot has
    been taken: execute the snapshot sequentially in order. -/
def runPass (o : ClientOracle) (userMessage : String) (userImages : List Unit)
    (sessionContext : String) (st : ExecState) : ExecState :=
  (readyOf st.results st.remaining).foldl
    (processTask o userMessage userImages sessionContext) st

/-- `_execute_workflow`'s loop, fuelled.  Returns the final state and `true`
    when the Python loop exits (remaining empty, or the deadlock-prevention
    `break` on an empty ready subset); returns the current state and `false`
    when the fuel runs out before the loop exits. -/
def execWorkflowFuel (o : ClientOracle) (userMessage : String) (userImages : List Unit)
    (sessionContext : String) : Nat → ExecState → ExecState × Bool
  | 0, st => (st, false)
  | fuel + 1, st =>
    if st.remaining.isEmpty then (st, true)
    else if (readyOf st.results st.remaining).isEmpty then (st, true)
    else execWorkflowFuel o userMessage userImages sessionContext fuel
      (runPass o userMessage userImages sessionContext st)

/-! ### IEEE-754 binary64 values (Python floats)

The confidence computation uses Python float literals and `+`/`min` on
floats.  A finite double is an integer significand times a power of two;
every value this program computes lies well inside the normal range
(magnitudes between 2⁻⁶⁴ and 2⁶⁴, significand sums below 2⁴⁰⁹⁶), so the
model below — 53-significant-bit normalisation with round to nearest, ties
to even — agrees with binary64 on all of them (no overflow, underflow or
subnormals arise). -/

/-- A binary64 value: the rational `m · 2^e`. -/
structure FloatVal where
  m : ℤ
  e : ℤ
deriving DecidableEq, Repr

/-- The exact rational a float value denotes. -/
def FloatVal.toRat (x : FloatVal) : ℚ := (x.m : ℚ) * 2^x.e

/-- Helper for `bitLen`: climbs `k` while `2^k ≤ n`. -/
def bitLenAux (n : ℕ) : ℕ → ℕ → ℕ
  | 0, k => k
  | fuel + 1, k => if n < 2^k then k else bitLenAux n fuel (k + 1)

/-- Number of binary digits of `n`: the least `k` with `n < 2^k` (for
    `n < 2^4096`). -/
def bitLen (n : ℕ) : ℕ := bitLenAux n 4096 0

/-- Round `a / b` (with `b > 0`) to the nearest natural number, ties to
    even. -/
def roundHalfEvenNat (a b : ℕ) : ℕ :=
  let q := a / b
  let r := a % b
  if 2 * r < b then q
  else if b < 2 * r then q + 1
  else if q % 2 = 0 then q else q + 1

/-- Round the positive value `n · 2^e` to 53 significant bits (round to
    nearest, ties to even): the binary64 normalisation step. -/
def normalize53 (n : ℕ) (e : ℤ) : FloatVal :=
  let L := bitLen n
  if L ≤ 53 then ⟨(n * 2^(53 - L) : ℕ), e - ((53 - L : ℕ) : ℤ)⟩
  else
    let s := L - 53
    let q := roundHalfEvenNat n (2^s)
    if q = 2^53 then ⟨((2^52 : ℕ) : ℤ), e + s + 1⟩ else ⟨(q : ℤ), e + s⟩

/-- Round the dyadic value `m · 2^e` to the nearest binary64 value. -/
def roundFloat (m : ℤ) (e : ℤ) : FloatVal :=
  if m = 0 then ⟨0, 0⟩
  else if 0 < m then normalize53 m.toNat e
  else ⟨-(normalize53 (-m).toNat e).m, (normalize53 (-m).toNat e).e⟩

/-- Binary64 addition: the exact dyadic sum, then rounding. -/
def FloatVal.add (x y : FloatVal) : FloatVal :=
  if x.e ≤ y.e then roundFloat (x.m + y.m * 2^(y.e - x.e).toNat) x.e
  else roundFloat (y.m + x.m * 2^(x.e - y.e).toNat) y.e

/-- Decides `2^e ≤ a / b` for positive `a b` by integer comparison. -/
def pow2le (e : ℤ) (a b : ℕ) : Bool :=
  match e with
  | Int.ofNat n => b * 2^n ≤ a
  | Int.negSucc n => b ≤ a * 2^(n+1)

/-- Helper for `floorLog2`: climbs `e` while `2^(e+1) ≤ a/b`. -/
def floorLog2Aux (a b : ℕ) : ℕ → ℤ → ℤ
  | 0, e => e
  | fuel + 1, e => if pow2le (e + 1) a b then floorLog2Aux a b fuel (e + 1) else e

/-- `⌊log₂ (a/b)⌋` for positive `a b` with `a/b` in `(2⁻⁶⁴, 2⁶⁴)`. -/
def floorLog2 (a b : ℕ) : ℤ := floorLog2Aux a b 128 (-64)

/-- The binary64 value nearest to `a / b` (positive `a b`, ties to even):
    the double denoted by a decimal literal such as `0.8`. -/
def doubleOfRat (a b : ℕ) : FloatVal :=
  let e := floorLog2 a b - 52
  let q := match e with
    | Int.ofNat n => roundHalfEvenNat a (b * 2^n)
    | Int.negSucc n => roundHalfEvenNat (a * 2^(n+1)) b
  if q = 2^53 then ⟨((2^52 : ℕ) : ℤ), e + 1⟩ else ⟨(q : ℤ), e⟩

/-- Value comparison of two float values, by integer cross comparison. -/
def FloatVal.le (x y : FloatVal) : Bool :=
  match y.e - x.e with
  | Int.ofNat n => decide (x.m ≤ y.m * 2^n)
  | Int.negSucc n => decide (x.m * 2^(n+1) ≤ y.m)

/-- Python's `min` on two float values (returns the first argument on
    ties, as CPython's `min` does). -/
def FloatVal.minV (x y : FloatVal) : FloatVal := if x.le y then x else y

/-! ### Output compiler and sessions -/

/-- `_calculate_overall_confidence`, computed in binary64 arithmetic as the
    source does: the literals `0.8`/`0.6`/`0.05`/`1.0` denote their nearest
    doubles, `+=` is double addition, and `min` compares doubles; the
    resulting double is returned as the exact rational it denotes. -/
def calculateOverallConfidence (results : List (TaskType × String)) : ℚ :=
  let base := if 3 ≤ results.length then doubleOfRat 8 10 else doubleOfRat 6 10
  let b1 := if (dictKeys results).contains TaskType.style_analysis
            then base.add (doubleOfRat 5 100) else base
  let b2 := if (dictKeys results).contains TaskType.technical_review
            then b1.add (doubleOfRat 5 100) else b1
  (b2.minV (doubleOfRat 1 1)).toRat

/-- The `final_output` dict shape produced by `_compile_final_output`. -/
structure FinalOutput where
  workflow_executed : List TaskType
  architectural_analysis : String
  expert_consultation : String
  style_analysis : String
  technical_review : String
  optimized_prompt : String
  quality_review : String
  confidence_score : ℚ
  agent_collaboration : Bool
  intelligent_routing : Bool
deriving Repr

/-- The pure part of `_compile_final_output`: projection of the result map
    onto the stable output shape. -/
def buildFinalOutput (results : List (TaskType × String)) : FinalOutput :=
  { workflow_executed := dictKeys results,
    architectural_analysis := (dictGet? results .vision_analysis).getD "",
    expert_consultation := (dictGet? results .architectural_consultation).getD "",
    style_analysis := (dictGet? results .style_analysis).getD "",
    technical_review := (dictGet? results .technical_review).getD "",
    optimized_prompt := (dictGet? results .prompt_engineering).getD "",
    quality_review := (dictGet? results .quality_assurance).getD "",
    confidence_score := calculateOverallConfidence results,
    agent_collaboration := true,
    intelligent_routing := true }

/-- One entry of `conversation_memory`: `{"context": ..., "agent_outputs": ...}`. -/
structure SessionData where
  context : String
  agent_outputs : List (TaskType × String)
deriving DecidableEq, Repr

/-- Lookup in the `conversation_memory` dict. -/
def memLookup : List (String × SessionData) → String → Option SessionData
  | [], _ => none
  | p :: rest, sid => if p.1 == sid then some p.2 else memLookup rest sid

/-- `self.conversation_memory[session_id]["agent_outputs"] = results`. -/
def memSetOutputs (mem : List (String × SessionData)) (sid : String)
    (results : List (TaskType × String)) : List (String × SessionData) :=
  mem.map (fun p => if p.1 == sid then (p.1, { p.2 with agent_outputs := results }) else p)

/-- `_compile_final_output`'s return value `{'final_output': ..., 'all_results': ...}`. -/
structure CompiledResult where
  final_output : FinalOutput
  all_results : List (TaskType × String)
deriving Repr

/-- Everything `_process_request_internal` produces: its return value, the
    updated session memory, and (ghost) the executor's final state and a
    flag recording whether the executor loop exited within the fuel. -/
structure ProcessOutcome where
  compiled : CompiledResult
  memory : List (String × SessionData)
  execState : ExecState
  finished : Bool

/-- `_process_request_internal`: initialise the session entry if absent, plan
    the workflow, run the executor with the session's context string, then
    compile the output and store the results in the session's
    `agent_outputs`. -/
def processRequestInternal (o : ClientOracle) (fuel : Nat) (userMessage : String)
    (userImages : List Unit) (sessionId : String)
    (mem : List (String × SessionData)) : ProcessOutcome :=
  let mem1 := if (memLookup mem sessionId).isSome then mem
              else mem ++ [(sessionId, { context := "", agent_outputs := [] })]
  let tasks := planWorkflow userMessage userImages
  let sctx := ((memLookup mem1 sessionId).getD { context := "", agent_outputs := [] }).context
  let stp := execWorkflowFuel o userMessage userImages sctx fuel
    { results := [], remaining := tasks, log := [] }
  let mem2 := memSetOutputs mem1 sessionId stp.1.results
  { compiled := { final_output := buildFinalOutput stp.1.results,
                  all_results := stp.1.results },
    memory := mem2, execState := stp.1, finished := stp.2 }

/-! ### Auxiliary definitions used by the claims -/

/-- Aggregate confidence written the way the specification words it:
    `min(base + bonus, 1.0)` with base `0.6`/`0.8` by the number of keys and
    `+0.05` per bonus specialist kind present. -/
def specConfidence (results : List (TaskType × String)) : ℚ :=
  min ((if (dictKeys results).length < 3 then (6 : ℚ)/10 else 8/10)
    + (if TaskType.style_analysis ∈ dictKeys results then 5/100 else 0)
    + (if TaskType.technical_review ∈ dictKeys results then 5/100 else 0)) 1

/-- Helper: every task's dependencies lie among the kinds of earlier tasks. -/
def topoSortedAux : List TaskType → List AgentTask → Bool
  | _, [] => true
  | seen, t :: rest =>
    t.dependencies.all (fun d => seen.contains d) && topoSortedAux (t.task_type :: seen) rest

/-- A task list is topologically sorted (hence its dependency graph is
    acyclic) when each task depends only on kinds of tasks before it. -/
def topoSorted (l : List AgentTask) : Bool := topoSortedAux [] l

/-- The dependency line `"\n{dep.value}: {results[dep]}\n"` contributed by one
    dependency to a task-local context. -/
def depLine (results : List (TaskType × String)) (d : TaskType) : String :=
  "\n" ++ d.value ++ ": " ++ ((dictGet? results d).getD "") ++ "\n"

/-- A log entry is well-formed for session context `sctx`: every declared
    dependency was a key of the result map at execution time, and the
    task-local context is exactly the session context followed by the
    dependency lines and nothing else. -/
def EntryGood (sctx : String) (e : ExecLogEntry) : Prop :=
  (∀ d ∈ e.task.dependencies, d ∈ dictKeys e.resultsBefore) ∧
  e.ctxUsed = sctx ++ String.join (e.task.dependencies.map (depLine e.resultsBefore))

/-! #### Concrete oracles and states used when settling the claims -/

/-- A benign client: every call succeeds with the text `"ok"`. -/
def oracleOk : ClientOracle := fun _ _ _ _ => Except.ok "ok"

/-- A client whose quality-assurance answer re-suggests style analysis after
    the style-analysis task has already completed. -/
def oracleC1 : ClientOracle := fun k _ _ _ =>
  Except.ok (if k == TaskType.quality_assurance then "Consider style analysis next." else "ok")

/-- A client whose style answer always asks for a technical review and whose
    technical answer always asks for a style analysis. -/
def oracleLoop : ClientOracle := fun k _ _ _ =>
  Except.ok (match k with
    | TaskType.quality_assurance => "please run style analysis"
    | TaskType.style_analysis => "please run technical review"
    | TaskType.technical_review => "please run style analysis"
    | _ => "ok")

/-- A client that fails (raises) on the consultation task and succeeds with
    `"ok"` everywhere else. -/
def oracleFail : ClientOracle := fun k _ _ _ =>
  if k == TaskType.architectural_consultation then Except.error "boom" else Except.ok "ok"

/-- A client that echoes the user message. -/
def oracleEcho : ClientOracle := fun _ m _ _ => Except.ok ("R:" ++ m)

/-- A client whose consultation answer asks for a technical review. -/
def oracleTrig : ClientOracle := fun k _ _ _ =>
  Except.ok (if k == TaskType.architectural_consultation
    then "This needs a technical review." else "ok")

/-- Result map reached by `oracleLoop` on message `"hi"` once all five kinds
    have produced a first answer; from here the executor cycles forever. -/
def loopR5 : List (TaskType × String) :=
  [(TaskType.architectural_consultation, "ok"),
   (TaskType.prompt_engineering, "ok"),
   (TaskType.quality_assurance, "please run style analysis"),
   (TaskType.style_analysis, "please run technical review"),
   (TaskType.technical_review, "please run style analysis")]

/-- `loopR5` without the technical-review entry (state one pass earlier). -/
def loopR4 : List (TaskType × String) :=
  [(TaskType.architectural_consultation, "ok"),
   (TaskType.prompt_engineering, "ok"),
   (TaskType.quality_assurance, "please run style analysis"),
   (TaskType.style_analysis, "please run technical review")]

/-- `loopR4` without the style-analysis entry (state two passes earlier). -/
def loopR3 : List (TaskType × String) :=
  [(TaskType.architectural_consultation, "ok"),
   (TaskType.prompt_engineering, "ok"),
   (TaskType.quality_assurance, "please run style analysis")]

/-- The style task re-injected by the technical-review answer in the cycle. -/
def loopS : AgentTask :=
  { task_type := .style_analysis, input_data := "hi",
    context := [("dynamic_routing", true)], dependencies := [.technical_review], priority := 5 }

/-- The technical task re-injected by the style-analysis answer in the cycle. -/
def loopT : AgentTask :=
  { task_type := .technical_review, input_data := "hi",
    context := [("dynamic_routing", true)], dependencies := [.style_analysis], priority := 5 }

/-- The style task first injected by the quality-assurance answer. -/
def loopS1 : AgentTask :=
  { task_type := .style_analysis, input_data := "hi",
    context := [("dynamic_routing", true)], dependencies := [.quality_assurance], priority := 5 }

/-- The planner's prompt-engineering task for message `"hi"`. -/
def peHi : AgentTask :=
  { task_type := .prompt_engineering, input_data := "hi", context := [],
    dependencies := [.architectural_consultation], priority := 3 }

/-- The planner's quality-assurance task for message `"hi"`. -/
def qaHi : AgentTask :=
  { task_type := .quality_assurance, input_data := "hi", context := [],
    dependencies := [.prompt_engineering], priority := 4 }

/-- The planner's consultation task for message `"hello"` (no images). -/
def consHello : AgentTask :=
  { task_type := .architectural_consultation, input_data := "hello", context := [],
    dependencies := [], priority := 2 }

/-- The planner's consultation task for message `"x"` (no images). -/
def consX : AgentTask :=
  { task_type := .architectural_consultation, input_data := "x", context := [],
    dependencies := [], priority := 2 }

/-- A task whose dependency can never be satisfied when no vision task exists. -/
def unsatTask : AgentTask :=
  { task_type := .quality_assurance, input_data := "x", context := [],
    dependencies := [.vision_analysis], priority := 4 }

/-- First request of the session-memory scenario: message `"first"`,
    session `"s"`, empty memory. -/
def c5run1 : ProcessOutcome := processRequestInternal oracleEcho 10 "first" [] "s" []

/-- Second request of the session-memory scenario: message `"second"`, same
    session `"s"`, memory left by the first request. -/
def c5run2 : ProcessOutcome := processRequestInternal oracleEcho 10 "second" [] "s" c5run1.memory

/-! ### Basic lemmas about the dict model and membership -/

lemma dictKeys_cons (p : TaskType × String) (rest : List (TaskType × String)) :
    dictKeys (p :: rest) = p.1 :: dictKeys rest := rfl

lemma contains_iff_mem {l : List TaskType} {a : TaskType} : l.contains a = true ↔ a ∈ l := by
  simp [List.contains]

lemma dictGet?_some_iff_mem {R : List (TaskType × String)} {a : TaskType} :
    (∃ v, dictGet? R a = some v) ↔ a ∈ dictKeys R := by
  induction R with
  | nil => simp [dictGet?, dictKeys]
  | cons p rest ih =>
    rw [dictKeys_cons]
    by_cases h : p.1 = a
    · have hb : (p.1 == a) = true := beq_iff_eq.mpr h
      simp [dictGet?, hb, h]
    · have hb : (p.1 == a) = false := beq_eq_false_iff_ne.mpr h
      have hne : ¬ (a = p.1) := fun he => h he.symm
      simp [dictGet?, hb, hne, ih]

lemma dictGet?_dictInsert_self {R : List (TaskType × String)} {k : TaskType} {v : String} :
    dictGet? (dictInsert R k v) k = some v := by
  induction R with
  | nil => simp [dictInsert, dictGet?]
  | cons p rest ih =>
    by_cases h : p.1 = k
    · simp [dictInsert, dictGet?, h]
    · have hb : (p.1 == k) = false := beq_eq_false_iff_ne.mpr h
      simp [dictInsert, dictGet?, hb, ih]

lemma mem_dictKeys_dictInsert {R : List (TaskType × String)} {a k : TaskType} {v : String} :
    a ∈ dictKeys (dictInsert R k v) ↔ a ∈ dictKeys R ∨ a = k := by
  induction R with
  | nil => simp [dictInsert, dictKeys]
  | cons p rest ih =>
    by_cases h : p.1 = k
    · have hb : (p.1 == k) = true := beq_iff_eq.mpr h
      have he : dictInsert (p :: rest) k v = (k, v) :: rest := by
        simp [dictInsert, hb]
      rw [he, dictKeys_cons, dictKeys_cons]
      simp only [List.mem_cons]
      rw [h]
      tauto
    · have hb : (p.1 == k) = false := beq_eq_false_iff_ne.mpr h
      have he : dictInsert (p :: rest) k v = p :: dictInsert rest k v := by
        simp [dictInsert, hb]
      rw [he, dictKeys_cons, dictKeys_cons]
      simp only [List.mem_cons]
      rw [ih]
      tauto

lemma nodup_dictKeys_dictInsert {R : List (TaskType × String)} {k : TaskType} {v : String}
    (h : (dictKeys R).Nodup) : (dictKeys (dictInsert R k v)).Nodup := by
  induction R with
  | nil => simp [dictInsert, dictKeys]
  | cons p rest ih =>
    rw [dictKeys_cons, List.nodup_cons] at h
    by_cases hpk : p.1 = k
    · have hb : (p.1 == k) = true := beq_iff_eq.mpr hpk
      have he : dictInsert (p :: rest) k v = (k, v) :: rest := by
        simp [dictInsert, hb]
      rw [he, dictKeys_cons, List.nodup_cons]
      exact ⟨hpk ▸ h.1, h.2⟩
    · have hb : (p.1 == k) = false := beq_eq_false_iff_ne.mpr hpk
      have he : dictInsert (p :: rest) k v = p :: dictInsert rest k v := by
        simp [dictInsert, hb]
      rw [he, dictKeys_cons, List.nodup_cons]
      refine ⟨?_, ih h.2⟩
      intro hmem
      rcases mem_dictKeys_dictInsert.mp hmem with hc | hc
      · exact h.1 hc
      · exact hpk hc

/-! ### Result-map keys along an execution -/

lemma processTask_keys_mono {o : ClientOracle} {m : String} {i : List Unit} {s : String}
    {st : ExecState} {t : AgentTask} {a : TaskType} (h : a ∈ dictKeys st.results) :
    a ∈ dictKeys (processTask o m i s st t).results := by
  simp only [processTask]
  exact mem_dictKeys_dictInsert.mpr (Or.inl h)

lemma processTask_keys_self {o : ClientOracle} {m : String} {i : List Unit} {s : String}
    {st : ExecState} {t : AgentTask} :
    t.task_type ∈ dictKeys (processTask o m i s st t).results := by
  simp only [processTask]
  exact mem_dictKeys_dictInsert.mpr (Or.inr rfl)

lemma processTask_nodup {o : ClientOracle} {m : String} {i : List Unit} {s : String}
    {st : ExecState} {t : AgentTask} (h : (dictKeys st.results).Nodup) :
    (dictKeys (processTask o m i s st t).results).Nodup := by
  simp only [processTask]
  exact nodup_dictKeys_dictInsert h

lemma foldl_processTask_nodup {o : ClientOracle} {m : String} {i : List Unit} {s : String} :
    ∀ (l : List AgentTask) (st : ExecState), (dictKeys st.results).Nodup →
    (dictKeys (List.foldl (processTask o m i s) st l).results).Nodup
  | [], _, h => h
  | _ :: ts, _, h => foldl_processTask_nodup ts _ (processTask_nodup h)

lemma execWorkflowFuel_nodup {o : ClientOracle} {m : String} {i : List Unit} {s : String} :
    ∀ (fuel : Nat) (st : ExecState), (dictKeys st.results).Nodup →
    (dictKeys (execWorkflowFuel o m i s fuel st).1.results).Nodup := by
  intro fuel
  induction fuel with
  | zero => intro st h; exact h
  | succ n ih =>
    intro st h
    rw [execWorkflowFuel]
    split
    · exact h
    · split
      · exact h
      · exact ih _ (foldl_processTask_nodup _ _ h)

/-! ### Termination when no result text triggers routing -/

lemma processTask_remaining_noInject (o : ClientOracle) (m : String) (i : List Unit) (s : String)
    (st : ExecState) (t : AgentTask)
    (H : ∀ (t' : AgentTask) (c : String),
      parseRoutingSuggestions (executeSingleTask o i t' c) t'.task_type = []) :
    (processTask o m i s st t).remaining = st.remaining.erase t := by
  simp only [processTask]
  rw [H]
  rfl

lemma foldl_processTask_remaining_le (o : ClientOracle) (m : String) (i : List Unit) (s : String)
    (H : ∀ (t' : AgentTask) (c : String),
      parseRoutingSuggestions (executeSingleTask o i t' c) t'.task_type = []) :
    ∀ (l : List AgentTask) (st : ExecState),
    (List.foldl (processTask o m i s) st l).remaining.length ≤ st.remaining.length
  | [], _ => le_refl _
  | t :: ts, st => by
    have h1 := foldl_processTask_remaining_le o m i s H ts (processTask o m i s st t)
    have h2 : (processTask o m i s st t).remaining.length ≤ st.remaining.length := by
      rw [processTask_remaining_noInject o m i s st t H]
      exact (st.remaining.erase_sublist t).length_le
    exact le_trans h1 h2

lemma runPass_remaining_lt (o : ClientOracle) (m : String) (i : List Unit) (s : String)
    (st : ExecState)
    (H : ∀ (t' : AgentTask) (c : String),
      parseRoutingSuggestions (executeSingleTask o i t' c) t'.task_type = [])
    (hready : readyOf st.results st.remaining ≠ []) :
    (runPass o m i s st).remaining.length < st.remaining.length := by
  obtain ⟨t, ts, heq⟩ := List.exists_cons_of_ne_nil hready
  have htmem : t ∈ st.remaining := by
    have hh : t ∈ readyOf st.results st.remaining := heq ▸ List.mem_cons_self t ts
    exact List.mem_of_mem_filter hh
  have hlen : st.remaining.length ≠ 0 := by
    intro h0
    rw [List.length_eq_zero] at h0
    rw [h0] at htmem
    exact absurd htmem (List.not_mem_nil t)
  calc (runPass o m i s st).remaining.length
      = (List.foldl (processTask o m i s) (processTask o m i s st t) ts).remaining.length := by
        rw [runPass, heq, List.foldl_cons]
    _ ≤ (processTask o m i s st t).remaining.length :=
        foldl_processTask_remaining_le o m i s H ts _
    _ = (st.remaining.erase t).length := by rw [processTask_remaining_noInject o m i s st t H]
    _ = st.remaining.length - 1 := st.remaining.length_erase_of_mem htmem
    _ < st.remaining.length := Nat.pred_lt hlen

lemma execWorkflowFuel_terminates (o : ClientOracle) (m : String) (i : List Unit) (s : String)
    (H : ∀ (t' : AgentTask) (c : String),
      parseRoutingSuggestions (executeSingleTask o i t' c) t'.task_type = []) :
    ∀ (fuel : Nat) (st : ExecState), st.remaining.length < fuel →
    (execWorkflowFuel o m i s fuel st).2 = true := by
  intro fuel
  induction fuel with
  | zero => intro st h; exact absurd h (Nat.not_lt_zero _)
  | succ n ih =>
    intro st h
    rw [execWorkflowFuel]
    split
    · rfl
    · split
      · rfl
      · rename_i h1 h2
        apply ih
        have hready : readyOf st.results st.remaining ≠ [] := by
          intro hnil
          rw [hnil] at h2
          exact h2 rfl
        have := runPass_remaining_lt o m i s st H hready
        omega

/-! ### Non-termination: a two-state cycle of the executor -/

lemma coreStuck_step {o : ClientOracle} {m : String} {i : List Unit} {s : String}
    {R R' : List (TaskType × String)} {rem rem' : List AgentTask}
    (hne : rem.isEmpty = false)
    (hready : (readyOf R rem).isEmpty = false)
    (hres : ∀ l, (runPass o m i s ⟨R, rem, l⟩).results = R')
    (hrem : ∀ l, (runPass o m i s ⟨R, rem, l⟩).remaining = rem')
    (hnext : ∀ n l, (execWorkflowFuel o m i s n ⟨R', rem', l⟩).2 = false) :
    ∀ n l, (execWorkflowFuel o m i s n ⟨R, rem, l⟩).2 = false := by
  intro n l
  cases n with
  | zero => rfl
  | succ n =>
    have hstep : execWorkflowFuel o m i s (n+1) ⟨R, rem, l⟩
        = execWorkflowFuel o m i s n (runPass o m i s ⟨R, rem, l⟩) := by
      simp [execWorkflowFuel, hne, hready]
    have h1 := hres l
    have h2 := hrem l
    rw [hstep]
    rcases hx : runPass o m i s ⟨R, rem, l⟩ with ⟨rs, rm, lg⟩
    rw [hx] at h1 h2
    dsimp at h1 h2
    subst h1; subst h2
    exact hnext n lg

lemma loopCycleStuck : ∀ n,
    (∀ l, (execWorkflowFuel oracleLoop "hi" [] "" n ⟨loopR5, [loopS], l⟩).2 = false) ∧
    (∀ l, (execWorkflowFuel oracleLoop "hi" [] "" n ⟨loopR5, [loopT], l⟩).2 = false) := by
  intro n
  induction n with
  | zero => exact ⟨fun _ => rfl, fun _ => rfl⟩
  | succ n ih =>
    constructor
    · intro l
      have hstep : execWorkflowFuel oracleLoop "hi" [] "" (n+1) ⟨loopR5, [loopS], l⟩
          = execWorkflowFuel oracleLoop "hi" [] "" n
              (runPass oracleLoop "hi" [] "" ⟨loopR5, [loopS], l⟩) := rfl
      have heq : runPass oracleLoop "hi" [] "" ⟨loopR5, [loopS], l⟩
          = ⟨loopR5, [loopT], (runPass oracleLoop "hi" [] "" ⟨loopR5, [loopS], l⟩).log⟩ := rfl
      rw [hstep, heq]
      exact ih.2 _
    · intro l
      have hstep : execWorkflowFuel oracleLoop "hi" [] "" (n+1) ⟨loopR5, [loopT], l⟩
          = execWorkflowFuel oracleLoop "hi" [] "" n
              (runPass oracleLoop "hi" [] "" ⟨loopR5, [loopT], l⟩) := rfl
      have heq : runPass oracleLoop "hi" [] "" ⟨loopR5, [loopT], l⟩
          = ⟨loopR5, [loopS], (runPass oracleLoop "hi" [] "" ⟨loopR5, [loopT], l⟩).log⟩ := rfl
      rw [hstep, heq]
      exact ih.1 _

lemma loopStuck : ∀ n,
    (execWorkflowFuel oracleLoop "hi" [] "" n ⟨[], planWorkflow "hi" [], []⟩).2 = false := by
  have h5 : ∀ n l, (execWorkflowFuel oracleLoop "hi" [] "" n ⟨loopR5, [loopS], l⟩).2 = false :=
    fun n => (loopCycleStuck n).1
  have h4 : ∀ n l, (execWorkflowFuel oracleLoop "hi" [] "" n ⟨loopR4, [loopT], l⟩).2 = false :=
    coreStuck_step rfl rfl (fun _ => rfl) (fun _ => rfl) h5
  have h3 : ∀ n l, (execWorkflowFuel oracleLoop "hi" [] "" n ⟨loopR3, [loopS1], l⟩).2 = false :=
    coreStuck_step rfl rfl (fun _ => rfl) (fun _ => rfl) h4
  have h2 : ∀ n l, (execWorkflowFuel oracleLoop "hi" [] "" n
      ⟨[(TaskType.architectural_consultation, "ok"), (TaskType.prompt_engineering, "ok")],
        [qaHi], l⟩).2 = false :=
    coreStuck_step rfl rfl (fun _ => rfl) (fun _ => rfl) h3
  have h1 : ∀ n l, (execWorkflowFuel oracleLoop "hi" [] "" n
      ⟨[(TaskType.architectural_consultation, "ok")], [peHi, qaHi], l⟩).2 = false :=
    coreStuck_step rfl rfl (fun _ => rfl) (fun _ => rfl) h2
  have h0 : ∀ n l, (execWorkflowFuel oracleLoop "hi" [] "" n
      ⟨[], planWorkflow "hi" [], l⟩).2 = false :=
    coreStuck_step rfl rfl (fun _ => rfl) (fun _ => rfl) h1
  exact fun n => h0 n []

/-! ### The task-local context string -/

lemma strJoin_cons (a : String) (l : List String) : String.join (a :: l) = a ++ String.join l := by
  cases a with
  | mk d =>
    simp [String.join_eq]
    show String.mk (d ++ (List.map String.data l).flatten)
        = String.mk d ++ String.mk ((List.map String.data l).flatten)
    rfl

lemma buildTaskContext_eq : ∀ (deps : List TaskType) (c : String) (R : List (TaskType × String)),
    (∀ d ∈ deps, d ∈ dictKeys R) →
    buildTaskContext c deps R = c ++ String.join (deps.map (depLine R))
  | [], c, R, _ => by
    simp [buildTaskContext, String.join_eq, String.append_empty]
  | d :: ds, c, R, h => by
    obtain ⟨v, hv⟩ := dictGet?_some_iff_mem.mpr (h d (List.mem_cons_self d ds))
    have step : buildTaskContext c (d :: ds) R
        = buildTaskContext (c ++ ("\n" ++ d.value ++ ": " ++ v ++ "\n")) ds R := by
      simp [buildTaskContext, hv]
    rw [step, buildTaskContext_eq ds _ R (fun x hx => h x (List.mem_cons_of_mem d hx)),
      List.map_cons, strJoin_cons, String.append_assoc]
    have hline : depLine R d = "\n" ++ d.value ++ ": " ++ v ++ "\n" := by
      simp [depLine, hv]
    rw [hline]

/-! ### The execution log -/

lemma processTask_log (o : ClientOracle) (m : String) (i : List Unit) (s : String)
    (st : ExecState) (t : AgentTask) :
    (processTask o m i s st t).log
      = st.log ++ [{ task := t, resultsBefore := st.results,
                     ctxUsed := buildTaskContext s t.dependencies st.results,
                     stored := executeSingleTask o i t
                       (buildTaskContext s t.dependencies st.results) }] := rfl

lemma foldl_log_good (o : ClientOracle) (m : String) (i : List Unit) (s : String) :
    ∀ (l : List AgentTask) (st : ExecState),
    (∀ τ ∈ l, ∀ d ∈ τ.dependencies, d ∈ dictKeys st.results) →
    (∀ e ∈ st.log, EntryGood s e) →
    ∀ e ∈ (List.foldl (processTask o m i s) st l).log, EntryGood s e
  | [], _, _, hg => hg
  | τ :: ts, st, hl, hg => by
    rw [List.foldl_cons]
    apply foldl_log_good o m i s ts (processTask o m i s st τ)
    · intro τ' hτ' d hd
      exact processTask_keys_mono (hl τ' (List.mem_cons_of_mem τ hτ') d hd)
    · intro e he
      rw [processTask_log] at he
      rcases List.mem_append.mp he with he | he
      · exact hg e he
      · have hdeps : ∀ d ∈ τ.dependencies, d ∈ dictKeys st.results :=
          hl τ (List.mem_cons_self τ ts)
        rw [List.mem_singleton.mp he]
        exact ⟨hdeps, buildTaskContext_eq τ.dependencies s st.results hdeps⟩

lemma exec_log_good (o : ClientOracle) (m : String) (i : List Unit) (s : String) :
    ∀ (fuel : Nat) (st : ExecState),
    (∀ e ∈ st.log, EntryGood s e) →
    ∀ e ∈ (execWorkflowFuel o m i s fuel st).1.log, EntryGood s e := by
  intro fuel
  induction fuel with
  | zero => intro st hg; exact hg
  | succ n ih =>
    intro st hg
    rw [execWorkflowFuel]
    split
    · exact hg
    · split
      · exact hg
      · apply ih
        apply foldl_log_good o m i s _ st _ hg
        intro τ hτ d hd
        have hall := (List.mem_filter.mp hτ).2
        rw [List.all_eq_true] at hall
        exact contains_iff_mem.mp (hall d hd)

lemma foldl_log_tasks (o : ClientOracle) (m : String) (i : List Unit) (s : String) :
    ∀ (l : List AgentTask) (st : ExecState),
    (List.foldl (processTask o m i s) st l).log.map (fun e => e.task)
      = st.log.map (fun e => e.task) ++ l
  | [], st => by simp
  | τ :: ts, st => by
    rw [List.foldl_cons, foldl_log_tasks o m i s ts _, processTask_log]
    simp

/-! ### Routing-suggestion parsing and dynamic injection -/

lemma mem_parseRoutingSuggestions {k : TaskType} {r : String} {src : TaskType} :
    k ∈ parseRoutingSuggestions r src ↔
      ((k = TaskType.style_analysis ∧ substrIn "style analysis" (toLowerStr r) = true
          ∧ src ≠ TaskType.style_analysis) ∨
       (k = TaskType.technical_review ∧ substrIn "technical review" (toLowerStr r) = true
          ∧ src ≠ TaskType.technical_review)) := by
  cases hb1 : substrIn "style analysis" (toLowerStr r) <;>
  cases hb2 : substrIn "technical review" (toLowerStr r) <;>
  by_cases h2 : src = TaskType.style_analysis <;>
  by_cases h4 : src = TaskType.technical_review <;>
  simp [parseRoutingSuggestions, hb1, hb2, h2, h4, bne_iff_ne]

lemma parse_nodup {r : String} {src : TaskType} : (parseRoutingSuggestions r src).Nodup := by
  unfold parseRoutingSuggestions
  split <;> split <;> simp

lemma injectStep_mem_mono {x : AgentTask} {rem : List AgentTask} {m : String}
    {src k : TaskType} (h : x ∈ rem) : x ∈ injectStep m src rem k := by
  unfold injectStep
  split
  · exact h
  · exact List.mem_append_left _ h

lemma foldl_injectStep_mem_mono {x : AgentTask} {m : String} {src : TaskType} :
    ∀ (ks : List TaskType) (rem : List AgentTask), x ∈ rem →
    x ∈ List.foldl (injectStep m src) rem ks
  | [], _, h => h
  | _ :: ks, rem, h =>
    foldl_injectStep_mem_mono ks _ (injectStep_mem_mono h)

lemma injectStep_append {rem : List AgentTask} {m : String} {src k : TaskType}
    (h : k ∉ rem.map AgentTask.task_type) :
    injectStep m src rem k = rem ++ [injectedTask m k src] := by
  unfold injectStep
  split
  · rename_i hc
    exact absurd (contains_iff_mem.mp hc) h
  · rfl

lemma injected_mem_foldl_aux {m : String} {src k : TaskType} :
    ∀ (ks : List TaskType) (rem : List AgentTask), ks.Nodup → k ∈ ks →
    k ∉ rem.map AgentTask.task_type →
    injectedTask m k src ∈ List.foldl (injectStep m src) rem ks
  | [], _, _, hk, _ => absurd hk (List.not_mem_nil k)
  | a :: ks, rem, hnd, hk, hnot => by
    rw [List.foldl_cons]
    rcases List.mem_cons.mp hk with rfl | hk'
    · rw [injectStep_append hnot]
      apply foldl_injectStep_mem_mono
      exact List.mem_append_right _ (List.mem_singleton.mpr rfl)
    · have hak : a ≠ k := by
        rintro rfl
        exact (List.nodup_cons.mp hnd).1 hk'
      apply injected_mem_foldl_aux ks _ (List.nodup_cons.mp hnd).2 hk'
      show k ∉ (injectStep m src rem a).map AgentTask.task_type
      unfold injectStep
      split
      · exact hnot
      · rw [List.map_append]
        intro hmem
        rcases List.mem_append.mp hmem with h | h
        · exact hnot h
        · simp only [injectedTask, List.map_cons, List.map_nil, List.mem_singleton] at h
          exact hak h.symm
  
lemma injected_mem_foldl {m r : String} {src k : TaskType} {rem : List AgentTask}
    (hk : k ∈ parseRoutingSuggestions r src)
    (hnot : k ∉ rem.map AgentTask.task_type) :
    injectedTask m k src ∈ List.foldl (injectStep m src) rem (parseRoutingSuggestions r src) :=
  injected_mem_foldl_aux _ rem parse_nodup hk hnot

lemma foldl_processTask_mem_remaining (o : ClientOracle) (m : String) (i : List Unit) (s : String) :
    ∀ (l : List AgentTask) (st : ExecState) (x : AgentTask),
    x ∈ st.remaining → x.task_type ∉ l.map AgentTask.task_type →
    x ∈ (List.foldl (processTask o m i s) st l).remaining
  | [], _, _, hx, _ => hx
  | τ :: ts, st, x, hx, hk => by
    rw [List.foldl_cons]
    apply foldl_processTask_mem_remaining o m i s ts _ x
    · have hxτ : x ≠ τ := by
        intro he
        apply hk
        rw [List.map_cons, he]
        exact List.mem_cons_self _ _
      show x ∈ (List.foldl (injectStep m τ.task_type) st.remaining
        (parseRoutingSuggestions (executeSingleTask o i τ
          (buildTaskContext s τ.dependencies st.results)) τ.task_type)).erase τ
      rw [List.mem_erase_of_ne hxτ]
      exact foldl_injectStep_mem_mono _ _ hx
    · intro hmem
      apply hk
      rw [List.map_cons]
      exact List.mem_cons_of_mem _ hmem

/-! ### Ready tasks are executed within the pass -/

lemma foldl_processTask_keys_mono (o : ClientOracle) (m : String) (i : List Unit) (s : String) :
    ∀ (l : List AgentTask) (st : ExecState) (a : TaskType), a ∈ dictKeys st.results →
    a ∈ dictKeys (List.foldl (processTask o m i s) st l).results
  | [], _, _, h => h
  | _ :: ts, _, a, h =>
    foldl_processTask_keys_mono o m i s ts _ a (processTask_keys_mono h)

lemma foldl_processTask_executes (o : ClientOracle) (m : String) (i : List Unit) (s : String) :
    ∀ (l : List AgentTask) (st : ExecState) (τ : AgentTask), τ ∈ l →
    τ.task_type ∈ dictKeys (List.foldl (processTask o m i s) st l).results
  | τ' :: ts, st, τ, h => by
    rw [List.foldl_cons]
    rcases List.mem_cons.mp h with rfl | h'
    · exact foldl_processTask_keys_mono o m i s ts _ _ processTask_keys_self
    · exact foldl_processTask_executes o m i s ts _ τ h'

lemma exec_keys_mono (o : ClientOracle) (m : String) (i : List Unit) (s : String) :
    ∀ (fuel : Nat) (st : ExecState) (a : TaskType), a ∈ dictKeys st.results →
    a ∈ dictKeys (execWorkflowFuel o m i s fuel st).1.results := by
  intro fuel
  induction fuel with
  | zero => intro st a h; exact h
  | succ n ih =>
    intro st a h
    rw [execWorkflowFuel]
    split
    · exact h
    · split
      · exact h
      · exact ih _ a (foldl_processTask_keys_mono o m i s _ st a h)

lemma ready_task_executes (o : ClientOracle) (m : String) (i : List Unit) (s : String) :
    ∀ (fuel : Nat) (st : ExecState) (τ : AgentTask), τ ∈ st.remaining →
    (τ.dependencies.all (fun d => (dictKeys st.results).contains d)) = true →
    (execWorkflowFuel o m i s fuel st).2 = true →
    τ.task_type ∈ dictKeys (execWorkflowFuel o m i s fuel st).1.results := by
  intro fuel
  induction fuel with
  | zero =>
    intro st τ _ _ hfin
    exact absurd hfin (by simp [execWorkflowFuel])
  | succ n ih =>
    intro st τ hτ hall hfin
    have hready : τ ∈ readyOf st.results st.remaining := List.mem_filter.mpr ⟨hτ, hall⟩
    rw [execWorkflowFuel]
    split
    · rename_i hempty
      rw [List.isEmpty_iff] at hempty
      rw [hempty] at hτ
      exact absurd hτ (List.not_mem_nil τ)
    · split
      · rename_i hnil
        rw [List.isEmpty_iff] at hnil
        rw [hnil] at hready
        exact absurd hready (List.not_mem_nil τ)
      · exact exec_keys_mono o m i s n _ _
          (foldl_processTask_executes o m i s _ st τ hready)

/-! ### The deadlock-prevention stop and the results-log correspondence -/

lemma exec_stop (o : ClientOracle) (m : String) (i : List Unit) (s : String)
    (st : ExecState) (n : Nat)
    (h1 : st.remaining ≠ []) (h2 : readyOf st.results st.remaining = []) :
    execWorkflowFuel o m i s (n+1) st = (st, true) := by
  have hb1 : st.remaining.isEmpty = false := by
    cases hc : st.remaining with
    | nil => exact absurd hc h1
    | cons a l => rfl
  have hb2 : (readyOf st.results st.remaining).isEmpty = true := by
    rw [h2]; rfl
  rw [execWorkflowFuel]
  simp [hb1, hb2]

lemma processTask_keys_iff_log (o : ClientOracle) (m : String) (i : List Unit) (s : String)
    (st : ExecState) (t : AgentTask)
    (hInv : ∀ k, k ∈ dictKeys st.results ↔ k ∈ st.log.map (fun e => e.task.task_type)) :
    ∀ k, k ∈ dictKeys (processTask o m i s st t).results
      ↔ k ∈ (processTask o m i s st t).log.map (fun e => e.task.task_type) := by
  intro k
  rw [processTask_log, List.map_append, List.mem_append]
  show k ∈ dictKeys (dictInsert st.results t.task_type _) ↔ _
  rw [mem_dictKeys_dictInsert, hInv k]
  simp

lemma foldl_processTask_keys_iff_log (o : ClientOracle) (m : String) (i : List Unit) (s : String) :
    ∀ (l : List AgentTask) (st : ExecState),
    (∀ k, k ∈ dictKeys st.results ↔ k ∈ st.log.map (fun e => e.task.task_type)) →
    ∀ k, k ∈ dictKeys (List.foldl (processTask o m i s) st l).results
      ↔ k ∈ (List.foldl (processTask o m i s) st l).log.map (fun e => e.task.task_type)
  | [], _, hInv => hInv
  | τ :: ts, st, hInv => by
    rw [List.foldl_cons]
    exact foldl_processTask_keys_iff_log o m i s ts _
      (processTask_keys_iff_log o m i s st τ hInv)

lemma exec_keys_iff_log (o : ClientOracle) (m : String) (i : List Unit) (s : String) :
    ∀ (fuel : Nat) (st : ExecState),
    (∀ k, k ∈ dictKeys st.results ↔ k ∈ st.log.map (fun e => e.task.task_type)) →
    ∀ k, k ∈ dictKeys (execWorkflowFuel o m i s fuel st).1.results
      ↔ k ∈ (execWorkflowFuel o m i s fuel st).1.log.map (fun e => e.task.task_type) := by
  intro fuel
  induction fuel with
  | zero => intro st hInv; exact hInv
  | succ n ih =>
    intro st hInv
    rw [execWorkflowFuel]
    split
    · exact hInv
    · split
      · exact hInv
      · exact ih _ (foldl_processTask_keys_iff_log o m i s _ st hInv)

/-! ### Failure handling -/

lemma strAppend_data (a b : String) : (a ++ b).data = a.data ++ b.data := rfl

lemma sentinel_ne_empty (k : TaskType) (e : String) :
    ("❌ Error in " ++ agentName k ++ ": " ++ e) ≠ "" := by
  intro h
  have hd : ("❌ Error in " ++ agentName k ++ ": " ++ e).data = ("" : String).data :=
    congrArg String.data h
  rw [strAppend_data, strAppend_data, strAppend_data] at hd
  rcases List.append_eq_nil.mp hd with ⟨h1, _⟩
  rcases List.append_eq_nil.mp h1 with ⟨h2, _⟩
  rcases List.append_eq_nil.mp h2 with ⟨h3, _⟩
  exact absurd h3 (by decide)

lemma processTask_stored_error (o : ClientOracle) (m : String) (i : List Unit) (s : String)
    (st : ExecState) (t : AgentTask) (e : String)
    (ho : ∀ im c, o t.task_type t.input_data im c = Except.error e) :
    dictGet? (processTask o m i s st t).results t.task_type
      = some ("❌ Error in " ++ agentName t.task_type ++ ": " ++ e) := by
  have hr : executeSingleTask o i t (buildTaskContext s t.dependencies st.results)
      = "❌ Error in " ++ agentName t.task_type ++ ": " ++ e := by
    unfold executeSingleTask processRequest
    split <;> rw [ho]
  simp only [processTask]
  rw [hr]
  exact dictGet?_dictInsert_self

lemma readyOf_congr {R1 R2 : List (TaskType × String)} {rem : List AgentTask}
    (h : dictKeys R1 = dictKeys R2) : readyOf R1 rem = readyOf R2 rem := by
  unfold readyOf
  rw [h]

/-! ### Confidence arithmetic -/

lemma contains_eq_false_of_not_mem {l : List TaskType} {a : TaskType} (h : a ∉ l) :
    l.contains a = false := by
  cases hc : l.contains a
  · rfl
  · exact absurd (contains_iff_mem.mp hc) h

lemma toRat_negExp (m : ℤ) (k : ℕ) : FloatVal.toRat ⟨m, -(k : ℤ)⟩ = (m : ℚ)/2^k := by
  simp [FloatVal.toRat, zpow_neg, div_eq_mul_inv]

lemma toRat53 (m : ℤ) : FloatVal.toRat ⟨m, -53⟩ = (m : ℚ)/9007199254740992 := by
  rw [show ((-53 : ℤ)) = -((53 : ℕ) : ℤ) from by norm_num, toRat_negExp]
  norm_num

lemma toRat_nonneg {x : FloatVal} (h : 0 ≤ x.m) : 0 ≤ x.toRat :=
  mul_nonneg (by exact_mod_cast h) (by positivity)

lemma le_iff_toRat {x y : FloatVal} : x.le y = true ↔ x.toRat ≤ y.toRat := by
  unfold FloatVal.le
  cases h : y.e - x.e with
  | ofNat n =>
    have hy : y.e = x.e + (n : ℤ) := by
      have h' : y.e - x.e = (n : ℤ) := h
      omega
    rw [decide_eq_true_iff]
    unfold FloatVal.toRat
    rw [hy, zpow_add₀ (two_ne_zero),
      show (y.m : ℚ) * ((2:ℚ)^x.e * 2^(n:ℤ)) = ((y.m : ℚ) * 2^(n:ℤ)) * 2^x.e from by ring,
      mul_le_mul_right (show (0:ℚ) < 2^x.e from by positivity), zpow_natCast]
    exact_mod_cast Iff.rfl
  | negSucc n =>
    have hx : x.e = y.e + ((n + 1 : ℕ) : ℤ) := by
      have h' : y.e - x.e = Int.negSucc n := h
      rw [Int.negSucc_eq] at h'
      omega
    rw [decide_eq_true_iff]
    unfold FloatVal.toRat
    rw [hx, zpow_add₀ (two_ne_zero),
      show (x.m : ℚ) * ((2:ℚ)^y.e * 2^((n+1:ℕ):ℤ)) = ((x.m : ℚ) * 2^((n+1:ℕ):ℤ)) * 2^y.e
        from by ring,
      mul_le_mul_right (show (0:ℚ) < 2^y.e from by positivity), zpow_natCast]
    exact_mod_cast Iff.rfl

lemma toRat_minV_le_right (x y : FloatVal) : (x.minV y).toRat ≤ y.toRat := by
  unfold FloatVal.minV
  split
  · rename_i hle
    exact le_iff_toRat.mp hle
  · exact le_refl _

lemma normalize53_m_nonneg (n : ℕ) (e : ℤ) : 0 ≤ (normalize53 n e).m := by
  simp only [normalize53]
  split_ifs <;> exact Int.natCast_nonneg _

lemma roundFloat_m_nonneg (m e : ℤ) (h : 0 ≤ m) : 0 ≤ (roundFloat m e).m := by
  simp only [roundFloat]
  split_ifs with h1 h2
  · exact le_refl 0
  · exact normalize53_m_nonneg _ _
  · exfalso
    omega

lemma add_m_nonneg {x y : FloatVal} (hx : 0 ≤ x.m) (hy : 0 ≤ y.m) :
    0 ≤ (x.add y).m := by
  simp only [FloatVal.add]
  split_ifs
  · exact roundFloat_m_nonneg _ _ (add_nonneg hx (mul_nonneg hy (by positivity)))
  · exact roundFloat_m_nonneg _ _ (add_nonneg hy (mul_nonneg hx (by positivity)))

lemma doubleOfRat_m_nonneg (a b : ℕ) : 0 ≤ (doubleOfRat a b).m := by
  simp only [doubleOfRat]
  split_ifs <;>
  first
    | exact Int.natCast_nonneg _
    | (split <;> exact Int.natCast_nonneg _)

lemma minV_m_nonneg {x y : FloatVal} (hx : 0 ≤ x.m) (hy : 0 ≤ y.m) :
    0 ≤ (x.minV y).m := by
  unfold FloatVal.minV
  split
  · exact hx
  · exact hy

lemma one_toRat : (doubleOfRat 1 1).toRat = 1 := by
  rw [show doubleOfRat 1 1 = ⟨4503599627370496, -52⟩ from by decide,
    show ((-52 : ℤ)) = -((52 : ℕ) : ℤ) from by norm_num, toRat_negExp]
  norm_num

lemma val_min6 : FloatVal.minV (doubleOfRat 6 10) (doubleOfRat 1 1)
    = ⟨5404319552844595, -53⟩ := by decide

lemma val_min8 : FloatVal.minV (doubleOfRat 8 10) (doubleOfRat 1 1)
    = ⟨7205759403792794, -53⟩ := by decide

lemma val_min65 : FloatVal.minV (FloatVal.add (doubleOfRat 6 10) (doubleOfRat 5 100))
    (doubleOfRat 1 1) = ⟨5854679515581645, -53⟩ := by decide

lemma val_min85 : FloatVal.minV (FloatVal.add (doubleOfRat 8 10) (doubleOfRat 5 100))
    (doubleOfRat 1 1) = ⟨7656119366529844, -53⟩ := by decide

lemma val_min7 : FloatVal.minV
    (FloatVal.add (FloatVal.add (doubleOfRat 6 10) (doubleOfRat 5 100)) (doubleOfRat 5 100))
    (doubleOfRat 1 1) = ⟨6305039478318695, -53⟩ := by decide

lemma val_min9 : FloatVal.minV
    (FloatVal.add (FloatVal.add (doubleOfRat 8 10) (doubleOfRat 5 100)) (doubleOfRat 5 100))
    (doubleOfRat 1 1) = ⟨8106479329266894, -53⟩ := by decide

lemma conf_nonneg (R : List (TaskType × String)) : 0 ≤ calculateOverallConfidence R := by
  simp only [calculateOverallConfidence]
  apply toRat_nonneg
  refine minV_m_nonneg ?_ (doubleOfRat_m_nonneg 1 1)
  split_ifs <;>
  first
    | exact doubleOfRat_m_nonneg _ _
    | exact add_m_nonneg (doubleOfRat_m_nonneg _ _) (doubleOfRat_m_nonneg _ _)
    | exact add_m_nonneg (add_m_nonneg (doubleOfRat_m_nonneg _ _)
        (doubleOfRat_m_nonneg _ _)) (doubleOfRat_m_nonneg _ _)

lemma conf_le_one (R : List (TaskType × String)) : calculateOverallConfidence R ≤ 1 := by
  simp only [calculateOverallConfidence]
  exact le_trans (toRat_minV_le_right _ _) (le_of_eq one_toRat)

lemma conf_nine (R : List (TaskType × String)) (h3 : 3 ≤ R.length)
    (hs : TaskType.style_analysis ∈ dictKeys R)
    (ht : TaskType.technical_review ∈ dictKeys R) :
    calculateOverallConfidence R = 8106479329266894/9007199254740992 ∧
    calculateOverallConfidence R ≠ 9/10 := by
  have hv : calculateOverallConfidence R = 8106479329266894/9007199254740992 := by
    simp only [calculateOverallConfidence]
    rw [if_pos h3, if_pos (contains_iff_mem.mpr hs), if_pos (contains_iff_mem.mpr ht),
      val_min9, toRat53]
    norm_num
  refine ⟨hv, ?_⟩
  rw [hv]
  norm_num

lemma conf_near_spec (R : List (TaskType × String)) :
    |calculateOverallConfidence R - specConfidence R| < 1/2^50 := by
  have hlen : (dictKeys R).length = R.length := List.length_map _ _
  by_cases h3 : 3 ≤ R.length
  · by_cases hs : TaskType.style_analysis ∈ dictKeys R
    · by_cases ht : TaskType.technical_review ∈ dictKeys R
      · simp only [calculateOverallConfidence, specConfidence]
        rw [hlen, if_pos h3, if_pos (contains_iff_mem.mpr hs), if_pos (contains_iff_mem.mpr ht),
          val_min9, toRat53, if_neg (by omega), if_pos hs, if_pos ht,
          min_eq_left (by norm_num), abs_sub_lt_iff]
        constructor <;> norm_num
      · simp only [calculateOverallConfidence, specConfidence]
        rw [hlen, if_pos h3, if_pos (contains_iff_mem.mpr hs),
          if_neg (fun hc => ht (contains_iff_mem.mp hc)),
          val_min85, toRat53, if_neg (by omega), if_pos hs, if_neg ht,
          min_eq_left (by norm_num), abs_sub_lt_iff]
        constructor <;> norm_num
    · by_cases ht : TaskType.technical_review ∈ dictKeys R
      · simp only [calculateOverallConfidence, specConfidence]
        rw [hlen, if_pos h3, if_neg (fun hc => hs (contains_iff_mem.mp hc)),
          if_pos (contains_iff_mem.mpr ht),
          val_min85, toRat53, if_neg (by omega), if_neg hs, if_pos ht,
          min_eq_left (by norm_num), abs_sub_lt_iff]
        constructor <;> norm_num
      · simp only [calculateOverallConfidence, specConfidence]
        rw [hlen, if_pos h3, if_neg (fun hc => hs (contains_iff_mem.mp hc)),
          if_neg (fun hc => ht (contains_iff_mem.mp hc)),
          val_min8, toRat53, if_neg (by omega), if_neg hs, if_neg ht,
          min_eq_left (by norm_num), abs_sub_lt_iff]
        constructor <;> norm_num
  · by_cases hs : TaskType.style_analysis ∈ dictKeys R
    · by_cases ht : TaskType.technical_review ∈ dictKeys R
      · simp only [calculateOverallConfidence, specConfidence]
        rw [hlen, if_neg h3, if_pos (contains_iff_mem.mpr hs), if_pos (contains_iff_mem.mpr ht),
          val_min7, toRat53, if_pos (by omega), if_pos hs, if_pos ht,
          min_eq_left (by norm_num), abs_sub_lt_iff]
        constructor <;> norm_num
      · simp only [calculateOverallConfidence, specConfidence]
        rw [hlen, if_neg h3, if_pos (contains_iff_mem.mpr hs),
          if_neg (fun hc => ht (contains_iff_mem.mp hc)),
          val_min65, toRat53, if_pos (by omega), if_pos hs, if_neg ht,
          min_eq_left (by norm_num), abs_sub_lt_iff]
        constructor <;> norm_num
    · by_cases ht : TaskType.technical_review ∈ dictKeys R
      · simp only [calculateOverallConfidence, specConfidence]
        rw [hlen, if_neg h3, if_neg (fun hc => hs (contains_iff_mem.mp hc)),
          if_pos (contains_iff_mem.mpr ht),
          val_min65, toRat53, if_pos (by omega), if_neg hs, if_pos ht,
          min_eq_left (by norm_num), abs_sub_lt_iff]
        constructor <;> norm_num
      · simp only [calculateOverallConfidence, specConfidence]
        rw [hlen, if_neg h3, if_neg (fun hc => hs (contains_iff_mem.mp hc)),
          if_neg (fun hc => ht (contains_iff_mem.mp hc)),
          val_min6, toRat53, if_pos (by omega), if_neg hs, if_neg ht,
          min_eq_left (by norm_num), abs_sub_lt_iff]
        constructor <;> norm_num

lemma conf_empty :
    calculateOverallConfidence [] = 5404319552844595/9007199254740992 := by
  simp only [calculateOverallConfidence]
  rw [if_neg (by decide), if_neg (by decide), if_neg (by decide), val_min6, toRat53]
  norm_num

lemma conf_empty_is_double6 :
    calculateOverallConfidence [] = (doubleOfRat 6 10).toRat := by
  rw [conf_empty, show doubleOfRat 6 10 = ⟨5404319552844595, -53⟩ from by decide, toRat53]
  norm_num

lemma buildFinalOutput_empty :
    buildFinalOutput [] =
      { workflow_executed := [], architectural_analysis := "", expert_consultation := "",
        style_analysis := "", technical_review := "", optimized_prompt := "",
        quality_review := "", confidence_score := 5404319552844595/9007199254740992,
        agent_collaboration := true, intelligent_routing := true } := by
  unfold buildFinalOutput
  rw [conf_empty]
  rfl

/-! ### Claim C8 -/

/-- C8: for the message "Design a modern house" with no images the planner
    emits exactly consultation, prompt-engineering, quality-review and
    style-analysis, with consultation and style-analysis dependency-free,
    prompt-engineering depending only on consultation, quality-review only on
    prompt-engineering, and no vision-analysis or technical-review task. -/
theorem c8_plan_modern_house :
    planWorkflow "Design a modern house" [] =
      [{ task_type := TaskType.architectural_consultation,
         input_data := "Design a modern house", context := [],
         dependencies := [], priority := 2 },
       { task_type := TaskType.prompt_engineering,
         input_data := "Design a modern house", context := [],
         dependencies := [TaskType.architectural_consultation], priority := 3 },
       { task_type := TaskType.quality_assurance,
         input_data := "Design a modern house", context := [],
         dependencies := [TaskType.prompt_engineering], priority := 4 },
       { task_type := TaskType.style_analysis,
         input_data := "Design a modern house", context := [],
         dependencies := [], priority := 2 }] := by
  decide

/-! ### Claim C1 -/

/-- C1 counterexample: with a client whose quality-assurance answer contains
    the phrase "style analysis", the terminating run on "Design a modern
    house" executes (hence invokes the remote client for) style-analysis
    twice: once as planned and once re-injected after it had completed. -/
theorem c1_counterexample :
    ((execWorkflowFuel oracleC1 "Design a modern house" [] "" 6
        { results := [], remaining := planWorkflow "Design a modern house" [],
          log := [] }).1.log.map (fun e => e.task.task_type))
      = [TaskType.architectural_consultation, TaskType.style_analysis,
         TaskType.prompt_engineering, TaskType.quality_assurance,
         TaskType.style_analysis] ∧
    ((execWorkflowFuel oracleC1 "Design a modern house" [] "" 6
        { results := [], remaining := planWorkflow "Design a modern house" [],
          log := [] }).1.log.map (fun e => e.task.task_type)).count
        TaskType.style_analysis = 2 ∧
    (execWorkflowFuel oracleC1 "Design a modern house" [] "" 6
        { results := [], remaining := planWorkflow "Design a modern house" [],
          log := [] }).2 = true := by
  refine ⟨?_, ?_, ?_⟩ <;> decide

/-- C1 (amended): every TaskKind appears at most once as a key of the final
    result map of any workflow run (the keys are duplicate-free); the remote
    client itself may however be invoked more than once for a kind. -/
theorem c1_result_map_unique (o : ClientOracle) (msg : String) (imgs : List Unit)
    (sctx : String) (fuel : Nat) (tasks : List AgentTask) :
    (dictKeys (execWorkflowFuel o msg imgs sctx fuel
      { results := [], remaining := tasks, log := [] }).1.results).Nodup :=
  execWorkflowFuel_nodup fuel _ List.nodup_nil

/-! ### Claim C2 -/

/-- C2 counterexample: the planner's task set for "hi" is topologically
    sorted (acyclic, all kinds registered), yet with `oracleLoop` the
    executor's loop never exits, for any amount of fuel: the style and
    technical tasks keep re-injecting each other. -/
theorem c2_counterexample :
    topoSorted (planWorkflow "hi" []) = true ∧
    ∀ n, (execWorkflowFuel oracleLoop "hi" [] "" n
      { results := [], remaining := planWorkflow "hi" [], log := [] }).2 = false :=
  ⟨by decide, loopStuck⟩

/-- C2 (amended): the executor terminates for every acyclic task set provided
    no produced result text triggers a routing suggestion; fuel one more than
    the number of initial tasks always suffices. -/
theorem c2_terminates_without_triggers (o : ClientOracle) (msg : String)
    (imgs : List Unit) (sctx : String) (tasks : List AgentTask)
    (H : ∀ (t' : AgentTask) (c : String),
      parseRoutingSuggestions (executeSingleTask o imgs t' c) t'.task_type = []) :
    (execWorkflowFuel o msg imgs sctx (tasks.length + 1)
      { results := [], remaining := tasks, log := [] }).2 = true := by
  apply execWorkflowFuel_terminates o msg imgs sctx H
  simp

/-- Witness for C2 (amended) at a concrete benign client. -/
theorem c2_terminates_without_triggers_witness :
    (execWorkflowFuel oracleOk "hi" [] "" ((planWorkflow "hi" []).length + 1)
      { results := [], remaining := planWorkflow "hi" [], log := [] }).2 = true :=
  c2_terminates_without_triggers oracleOk "hi" [] "" (planWorkflow "hi" [])
    (fun t' c => by unfold executeSingleTask; split <;> rfl)

/-! ### Claim C3 -/

/-- C3: whenever the executor executes a task (i.e. for every entry of the
    execution log of a workflow run), every declared dependency is already a
    key of the result map at that moment, and the task-local context is
    exactly the session context followed by one "<kind>: <text>" line per
    dependency, with no other task's output. -/
theorem c3_dependency_context (o : ClientOracle) (msg : String) (imgs : List Unit)
    (sctx : String) (fuel : Nat) (tasks : List AgentTask) (e : ExecLogEntry)
    (hmem : e ∈ (execWorkflowFuel o msg imgs sctx fuel
      { results := [], remaining := tasks, log := [] }).1.log) :
    (∀ d ∈ e.task.dependencies, d ∈ dictKeys e.resultsBefore) ∧
    e.ctxUsed = sctx ++ String.join (e.task.dependencies.map (depLine e.resultsBefore)) :=
  exec_log_good o msg imgs sctx fuel _
    (fun e' he' => absurd he' (List.not_mem_nil e')) e hmem

/-- Witness for C3 at a concrete run and log entry. -/
theorem c3_dependency_context_witness :
    ({ task := consHello, resultsBefore := [], ctxUsed := "", stored := "ok" }
        ∈ (execWorkflowFuel oracleOk "hello" [] "" 5
          { results := [], remaining := planWorkflow "hello" [], log := [] }).1.log) ∧
    ((∀ d ∈ consHello.dependencies, d ∈ dictKeys ([] : List (TaskType × String))) ∧
     "" = "" ++ String.join (consHello.dependencies.map
        (depLine ([] : List (TaskType × String))))) :=
  ⟨by decide,
   c3_dependency_context oracleOk "hello" [] "" 5 (planWorkflow "hello" [])
     { task := consHello, resultsBefore := [], ctxUsed := "", stored := "ok" }
     (by decide)⟩

/-! ### Claim C4 -/

/-- C4: (1) when the remote call for a task fails, the executor records the
    non-empty error sentinel "❌ Error in <name>: <msg>" under the task's
    kind and its processing step is a total function (no exception escapes);
    (2) readiness of tasks depends only on which kinds are keys, never on
    the recorded texts, so dependents of a failed task still run; (3) in the
    concrete run where consultation fails, the workflow completes, the
    sentinel is stored, both downstream tasks still execute exactly once
    each (no retry), and prompt-engineering receives the sentinel in its
    context. -/
theorem c4_failure_isolation :
    (∀ (o : ClientOracle) (m : String) (i : List Unit) (s : String)
       (st : ExecState) (t : AgentTask) (e : String),
      (∀ im c, o t.task_type t.input_data im c = Except.error e) →
      dictGet? (processTask o m i s st t).results t.task_type
        = some ("❌ Error in " ++ agentName t.task_type ++ ": " ++ e) ∧
      ("❌ Error in " ++ agentName t.task_type ++ ": " ++ e) ≠ "") ∧
    (∀ (R1 R2 : List (TaskType × String)) (rem : List AgentTask),
      dictKeys R1 = dictKeys R2 → readyOf R1 rem = readyOf R2 rem) ∧
    ((execWorkflowFuel oracleFail "hello" [] "" 5
        { results := [], remaining := planWorkflow "hello" [], log := [] }).2 = true ∧
     (execWorkflowFuel oracleFail "hello" [] "" 5
        { results := [], remaining := planWorkflow "hello" [], log := [] }).1.results
       = [(TaskType.architectural_consultation, "❌ Error in Architectural Expert: boom"),
          (TaskType.prompt_engineering, "ok"), (TaskType.quality_assurance, "ok")] ∧
     (execWorkflowFuel oracleFail "hello" [] "" 5
        { results := [], remaining := planWorkflow "hello" [], log := [] }).1.log.map
          (fun e => (e.task.task_type, e.ctxUsed))
       = [(TaskType.architectural_consultation, ""),
          (TaskType.prompt_engineering,
           "\narchitectural_consultation: ❌ Error in Architectural Expert: boom\n"),
          (TaskType.quality_assurance, "\nprompt_engineering: ok\n")]) := by
  refine ⟨?_, ?_, ?_, ?_, ?_⟩
  · intro o m i s st t e ho
    exact ⟨processTask_stored_error o m i s st t e ho, sentinel_ne_empty t.task_type e⟩
  · intro R1 R2 rem h
    exact readyOf_congr h
  · decide
  · decide
  · decide

/-- Witness for C4 at a concrete failing client. -/
theorem c4_failure_isolation_witness :
    (∀ im c, oracleFail TaskType.architectural_consultation "hello" im c
        = Except.error "boom") ∧
    (dictGet? (processTask oracleFail "hello" [] ""
        { results := [], remaining := [], log := [] } consHello).results
        TaskType.architectural_consultation
      = some ("❌ Error in " ++ agentName TaskType.architectural_consultation ++ ": " ++ "boom") ∧
     ("❌ Error in " ++ agentName TaskType.architectural_consultation ++ ": " ++ "boom") ≠ "") :=
  ⟨fun _ _ => rfl,
   c4_failure_isolation.1 oracleFail "hello" [] ""
     { results := [], remaining := [], log := [] } consHello "boom" (fun _ _ => rfl)⟩

/-! ### Claim C5 -/

/-- C5 is refuted by the code: after the first request the session entry
    stores the workflow's outputs in `agent_outputs`, but its `context`
    string stays empty — nothing ever writes it — so the second request in
    the same session runs every task with a context that contains nothing of
    the first request's outputs ("R:first" appears in no context line). -/
theorem c5_session_context_not_inherited :
    memLookup c5run1.memory "s"
      = some { context := "",
               agent_outputs :=
                 [(TaskType.architectural_consultation, "R:first"),
                  (TaskType.prompt_engineering, "R:first"),
                  (TaskType.quality_assurance, "R:first")] } ∧
    c5run2.execState.log.map (fun e => e.ctxUsed)
      = ["", "\narchitectural_consultation: R:second\n", "\nprompt_engineering: R:second\n"] ∧
    (c5run2.execState.log.map (fun e => substrIn "R:first" e.ctxUsed))
      = [false, false, false] := by
  refine ⟨?_, ?_, ?_⟩ <;> decide

/-! ### Claim C6 -/

/-- C6 counterexample: on a three-key result map with both bonus kinds, the
    program's confidence is the double 0.9000000000000001
    (8106479329266894 / 2⁵³): it is not the exact rational 9/10, not the
    double denoted by the literal 0.9 (one ulp below it), and differs from
    the spec's exact formula min(base + bonus, 1), which gives exactly
    9/10. -/
theorem c6_counterexample :
    calculateOverallConfidence
        [(TaskType.architectural_consultation, "a"),
         (TaskType.style_analysis, "b"), (TaskType.technical_review, "c")]
      = 8106479329266894/9007199254740992 ∧
    calculateOverallConfidence
        [(TaskType.architectural_consultation, "a"),
         (TaskType.style_analysis, "b"), (TaskType.technical_review, "c")]
      ≠ 9/10 ∧
    calculateOverallConfidence
        [(TaskType.architectural_consultation, "a"),
         (TaskType.style_analysis, "b"), (TaskType.technical_review, "c")]
      ≠ (doubleOfRat 9 10).toRat ∧
    specConfidence
        [(TaskType.architectural_consultation, "a"),
         (TaskType.style_analysis, "b"), (TaskType.technical_review, "c")]
      = 9/10 := by
  have h := conf_nine
    [(TaskType.architectural_consultation, "a"),
     (TaskType.style_analysis, "b"), (TaskType.technical_review, "c")]
    (by decide) (by decide) (by decide)
  refine ⟨h.1, h.2, ?_, ?_⟩
  · rw [h.1, show doubleOfRat 9 10 = ⟨8106479329266893, -53⟩ from by decide, toRat53]
    norm_num
  · simp only [specConfidence]
    rw [if_neg (by decide), if_pos (by decide), if_pos (by decide),
      min_eq_left (by norm_num)]
    norm_num

/-- C6 (amended): the aggregate confidence is computed in IEEE-754 binary64
    arithmetic — base the double 0.6 below three keys, else 0.8, plus a
    double-added 0.05 per bonus specialist kind present, clamped by `min`
    with 1.0.  The score always lies in [0, 1] and agrees with the spec's
    exact formula `specConfidence` to within 2⁻⁵⁰, but with at least three
    kinds and both bonus kinds it equals the double 0.9000000000000001
    (8106479329266894 / 2⁵³), not exactly 0.9; the empty result map compiles
    to all-empty-string fields with confidence exactly the double denoted by
    0.6 (5404319552844595 / 2⁵³). -/
theorem c6_confidence :
    (∀ R : List (TaskType × String),
      0 ≤ calculateOverallConfidence R ∧ calculateOverallConfidence R ≤ 1) ∧
    (∀ R : List (TaskType × String),
      |calculateOverallConfidence R - specConfidence R| < 1/2^50) ∧
    (∀ R : List (TaskType × String), 3 ≤ R.length →
      TaskType.style_analysis ∈ dictKeys R → TaskType.technical_review ∈ dictKeys R →
      calculateOverallConfidence R = 8106479329266894/9007199254740992 ∧
      calculateOverallConfidence R ≠ 9/10) ∧
    (calculateOverallConfidence [] = 5404319552844595/9007199254740992 ∧
     calculateOverallConfidence [] = (doubleOfRat 6 10).toRat ∧
     buildFinalOutput [] =
       { workflow_executed := [], architectural_analysis := "", expert_consultation := "",
         style_analysis := "", technical_review := "", optimized_prompt := "",
         quality_review := "", confidence_score := 5404319552844595/9007199254740992,
         agent_collaboration := true, intelligent_routing := true }) :=
  ⟨fun R => ⟨conf_nonneg R, conf_le_one R⟩, conf_near_spec, conf_nine,
   conf_empty, conf_empty_is_double6, buildFinalOutput_empty⟩

/-- Witness for C6 (amended) at a three-entry result map with both bonus
    kinds. -/
theorem c6_confidence_witness :
    calculateOverallConfidence
        [(TaskType.architectural_consultation, "a"),
         (TaskType.style_analysis, "b"), (TaskType.technical_review, "c")]
      = 8106479329266894/9007199254740992 ∧
    calculateOverallConfidence
        [(TaskType.architectural_consultation, "a"),
         (TaskType.style_analysis, "b"), (TaskType.technical_review, "c")]
      ≠ 9/10 :=
  c6_confidence.2.2.1
    [(TaskType.architectural_consultation, "a"),
     (TaskType.style_analysis, "b"), (TaskType.technical_review, "c")]
    (by decide) (by decide) (by decide)

/-! ### Claim C9 -/

/-- C9: if tasks remain but none has all its dependencies among the result
    map's keys, the executor stops at once and returns the current state
    unchanged — the remaining tasks are dropped without being executed and
    the partial result map is returned; moreover in any run from a fresh
    state the keys of the returned result map are exactly the kinds of the
    tasks that were actually executed (the log). -/
theorem c9_deadlock_stop :
    (∀ (o : ClientOracle) (m : String) (i : List Unit) (s : String)
       (st : ExecState) (n : Nat),
      st.remaining ≠ [] → readyOf st.results st.remaining = [] →
      execWorkflowFuel o m i s (n+1) st = (st, true)) ∧
    (∀ (o : ClientOracle) (m : String) (i : List Unit) (s : String)
       (fuel : Nat) (tasks : List AgentTask) (k : TaskType),
      k ∈ dictKeys (execWorkflowFuel o m i s fuel
          { results := [], remaining := tasks, log := [] }).1.results ↔
      k ∈ (execWorkflowFuel o m i s fuel
          { results := [], remaining := tasks, log := [] }).1.log.map
        (fun e => e.task.task_type)) :=
  ⟨fun o m i s st n h1 h2 => exec_stop o m i s st n h1 h2,
   fun o m i s fuel tasks k =>
     exec_keys_iff_log o m i s fuel _ (fun a => by simp [dictKeys]) k⟩

/-- Witness for C9 at a task whose dependency can never be produced. -/
theorem c9_deadlock_stop_witness :
    (([unsatTask] : List AgentTask) ≠ [] ∧ readyOf [] [unsatTask] = []) ∧
    execWorkflowFuel oracleOk "x" [] "" 3
      { results := [], remaining := [unsatTask], log := [] }
      = ({ results := [], remaining := [unsatTask], log := [] }, true) :=
  ⟨⟨by decide, by decide⟩,
   c9_deadlock_stop.1 oracleOk "x" [] ""
     { results := [], remaining := [unsatTask], log := [] } 2 (by decide) (by decide)⟩

/-! ### Claim C10 -/

/-- C10: the executor is deterministic and sequential — within a pass the
    ready tasks are executed exactly in the insertion order of the task
    list (the log extends by the ready snapshot in order), and two
    `process_request` runs with identical message, images, session id,
    memory and client behaviour produce identical outcomes. -/
theorem c10_deterministic_order :
    (∀ (o : ClientOracle) (m : String) (i : List Unit) (s : String) (st : ExecState),
      (runPass o m i s st).log.map (fun e => e.task)
        = st.log.map (fun e => e.task) ++ readyOf st.results st.remaining) ∧
    (∀ (o : ClientOracle) (fuel : Nat) (m1 m2 : String) (i1 i2 : List Unit)
       (s1 s2 : String) (mem1 mem2 : List (String × SessionData)),
      m1 = m2 → i1 = i2 → s1 = s2 → mem1 = mem2 →
      processRequestInternal o fuel m1 i1 s1 mem1
        = processRequestInternal o fuel m2 i2 s2 mem2) := by
  constructor
  · intro o m i s st
    exact foldl_log_tasks o m i s _ st
  · intro o fuel m1 m2 i1 i2 s1 s2 mem1 mem2 h1 h2 h3 h4
    rw [h1, h2, h3, h4]

/-- Witness for C10 at two literally equal requests. -/
theorem c10_deterministic_order_witness :
    processRequestInternal oracleOk 6 "hello" [] "s" []
      = processRequestInternal oracleOk 6 "hello" [] "s" [] :=
  c10_deterministic_order.2 oracleOk 6 "hello" "hello" [] [] "s" "s" [] []
    rfl rfl rfl rfl

/-! ### Dynamic injection: helper lemmas for C7 -/

lemma injection_executes :
    ∀ (o : ClientOracle) (m : String) (i : List Unit) (s : String) (st : ExecState)
      (pre post : List AgentTask) (t : AgentTask) (k : TaskType) (n : Nat),
    readyOf st.results st.remaining = pre ++ t :: post →
    k ∈ parseRoutingSuggestions
      (executeSingleTask o i t (buildTaskContext s t.dependencies
        (List.foldl (processTask o m i s) st pre).results)) t.task_type →
    k ∉ (List.foldl (processTask o m i s) st pre).remaining.map AgentTask.task_type →
    k ∉ post.map AgentTask.task_type →
    (injectedTask m k t.task_type).priority = 5 ∧
    (injectedTask m k t.task_type).dependencies = [t.task_type] ∧
    injectedTask m k t.task_type ∈ (runPass o m i s st).remaining ∧
    ((execWorkflowFuel o m i s (n+1) st).2 = true →
      k ∈ dictKeys (execWorkflowFuel o m i s (n+1) st).1.results) := by
  intro o m i s st pre post t k n hready hk hnot hpost
  have hrp : runPass o m i s st
      = List.foldl (processTask o m i s)
          (processTask o m i s (List.foldl (processTask o m i s) st pre) t) post := by
    rw [runPass, hready, List.foldl_append, List.foldl_cons]
  have hkt : k ≠ t.task_type := by
    rcases mem_parseRoutingSuggestions.mp hk with ⟨rfl, _, hne⟩ | ⟨rfl, _, hne⟩ <;>
      exact fun he => hne he.symm
  have hne_inj : injectedTask m k t.task_type ≠ t :=
    fun he => hkt (congrArg AgentTask.task_type he)
  have hmem1 : injectedTask m k t.task_type
      ∈ (processTask o m i s (List.foldl (processTask o m i s) st pre) t).remaining := by
    have hrem : (processTask o m i s (List.foldl (processTask o m i s) st pre) t).remaining
        = (List.foldl (injectStep m t.task_type)
            (List.foldl (processTask o m i s) st pre).remaining
            (parseRoutingSuggestions
              (executeSingleTask o i t (buildTaskContext s t.dependencies
                (List.foldl (processTask o m i s) st pre).results)) t.task_type)).erase t := rfl
    rw [hrem, List.mem_erase_of_ne hne_inj]
    exact injected_mem_foldl hk hnot
  have hmem3 : injectedTask m k t.task_type ∈ (runPass o m i s st).remaining := by
    rw [hrp]
    exact foldl_processTask_mem_remaining o m i s post _ _ hmem1 hpost
  refine ⟨rfl, rfl, hmem3, ?_⟩
  intro hfin
  have hrem_ne : st.remaining.isEmpty = false := by
    cases hc : st.remaining with
    | nil =>
      rw [hc] at hready
      simp [readyOf] at hready
    | cons a l => rfl
  have hready_ne : (readyOf st.results st.remaining).isEmpty = false := by
    rw [hready]
    cases pre <;> rfl
  have hstep : execWorkflowFuel o m i s (n+1) st
      = execWorkflowFuel o m i s n (runPass o m i s st) := by
    rw [execWorkflowFuel]
    simp [hrem_ne, hready_ne]
  rw [hstep] at hfin ⊢
  have hkeys : t.task_type ∈ dictKeys (runPass o m i s st).results := by
    rw [hrp]
    exact foldl_processTask_keys_mono o m i s post _ _ processTask_keys_self
  have hall : ((injectedTask m k t.task_type).dependencies.all
      (fun d => (dictKeys (runPass o m i s st).results).contains d)) = true := by
    rw [List.all_eq_true]
    intro d hd
    have hd' : d = t.task_type := List.mem_singleton.mp hd
    rw [hd']
    exact contains_iff_mem.mpr hkeys
  exact ready_task_executes o m i s n (runPass o m i s st)
    (injectedTask m k t.task_type) hmem3 hall hfin

lemma planWorkflow_priority_le : ∀ (m : String) (i : List Unit) (t : AgentTask),
    t ∈ planWorkflow m i → t.priority ≤ 4 := by
  intro m i t ht
  simp only [planWorkflow] at ht
  split_ifs at ht <;> fin_cases ht <;> norm_num

lemma parse_trigger_iff : ∀ (r : String) (src : TaskType),
    (TaskType.style_analysis ∈ parseRoutingSuggestions r src ↔
       substrIn "style analysis" (toLowerStr r) = true ∧ src ≠ TaskType.style_analysis) ∧
    (TaskType.technical_review ∈ parseRoutingSuggestions r src ↔
       substrIn "technical review" (toLowerStr r) = true ∧ src ≠ TaskType.technical_review) := by
  intro r src
  constructor
  · rw [mem_parseRoutingSuggestions]
    simp
  · rw [mem_parseRoutingSuggestions]
    simp

/-! ### Claim C7 -/

/-- C7: membership in the routing suggestions is exactly "trigger phrase in
    the lowercased result text and the completing task is not that kind
    itself"; every organically planned task has priority at most 4 (so the
    injected priority 5 is strictly less urgent); and whenever a ready task
    `t` executes in a pass, its result suggests kind `k`, and `k` is neither
    still scheduled nor among the later ready tasks, then the injected task
    for `k` — priority 5, depending exactly on `t` — is in the remaining set
    after the pass and, if the workflow loop terminates, `k` is a key of the
    final result map (it executes before the workflow ends). -/
theorem c7_dynamic_injection :
    (∀ (r : String) (src : TaskType),
      (TaskType.style_analysis ∈ parseRoutingSuggestions r src ↔
         substrIn "style analysis" (toLowerStr r) = true ∧ src ≠ TaskType.style_analysis) ∧
      (TaskType.technical_review ∈ parseRoutingSuggestions r src ↔
         substrIn "technical review" (toLowerStr r) = true ∧ src ≠ TaskType.technical_review)) ∧
    (∀ (m : String) (i : List Unit) (t : AgentTask),
      t ∈ planWorkflow m i → t.priority ≤ 4) ∧
    (∀ (o : ClientOracle) (m : String) (i : List Unit) (s : String) (st : ExecState)
       (pre post : List AgentTask) (t : AgentTask) (k : TaskType) (n : Nat),
      readyOf st.results st.remaining = pre ++ t :: post →
      k ∈ parseRoutingSuggestions
        (executeSingleTask o i t (buildTaskContext s t.dependencies
          (List.foldl (processTask o m i s) st pre).results)) t.task_type →
      k ∉ (List.foldl (processTask o m i s) st pre).remaining.map AgentTask.task_type →
      k ∉ post.map AgentTask.task_type →
      (injectedTask m k t.task_type).priority = 5 ∧
      (injectedTask m k t.task_type).dependencies = [t.task_type] ∧
      injectedTask m k t.task_type ∈ (runPass o m i s st).remaining ∧
      ((execWorkflowFuel o m i s (n+1) st).2 = true →
        k ∈ dictKeys (execWorkflowFuel o m i s (n+1) st).1.results)) :=
  ⟨parse_trigger_iff, planWorkflow_priority_le, injection_executes⟩

/-- Witness for C7: a consultation whose answer asks for a technical review
    injects the technical-review task and it is executed before the
    terminating workflow ends. -/
theorem c7_dynamic_injection_witness :
    (readyOf ([] : List (TaskType × String)) [consX] = [] ++ consX :: []) ∧
    (TaskType.technical_review ∈ parseRoutingSuggestions
      (executeSingleTask oracleTrig [] consX (buildTaskContext "" consX.dependencies
        (List.foldl (processTask oracleTrig "x" [] "")
          { results := [], remaining := [consX], log := [] } []).results))
      consX.task_type) ∧
    ((injectedTask "x" TaskType.technical_review consX.task_type).priority = 5 ∧
     (injectedTask "x" TaskType.technical_review consX.task_type).dependencies
        = [consX.task_type] ∧
     injectedTask "x" TaskType.technical_review consX.task_type
       ∈ (runPass oracleTrig "x" [] ""
           { results := [], remaining := [consX], log := [] }).remaining ∧
     ((execWorkflowFuel oracleTrig "x" [] "" 3
         { results := [], remaining := [consX], log := [] }).2 = true →
       TaskType.technical_review ∈ dictKeys (execWorkflowFuel oracleTrig "x" [] "" 3
         { results := [], remaining := [consX], log := [] }).1.results)) :=
  ⟨by decide, by decide,
   c7_dynamic_injection.2.2 oracleTrig "x" [] ""
     { results := [], remaining := [consX], log := [] }
     [] [] consX TaskType.technical_review 2
     (by decide) (by decide) (by decide) (by decide)⟩
